import Mathlib

/-!
A verification development for the endpoint-composition core of the
`finchers` repository: path-segment matching and extraction, the
`And`/`All` task state machines built on `MaybeDone` slots, the `Or`
alternation rule, and the driver's handling of declined requests.

The request path is modelled as the list of its decoded segments; the
path cursor is the remaining suffix of that list, so "the cursor
advances by k" is "the remaining list loses its first k elements".
Asynchronous sub-tasks are modelled as `ScriptTask`s: a scripted number
of not-ready polls followed by a final `Except` result, instrumented
with a count of how many times the task has actually been polled.
A panic in the Rust source is modelled by an `Option`-valued step
returning `none`.
-/

namespace Finchers

/-- Result of polling a task once: translated from the `PollTask` /
`Poll` types used by `finchers-endpoint` (`Ok(Async::Ready)`,
`Ok(Async::NotReady)`, `Err(e)`). -/
inductive Poll (α ε : Type) where
  | ready (a : α)
  | notReady
  | err (e : ε)
deriving DecidableEq, Repr

instance instDecEqExcept {ε α : Type} [DecidableEq ε] [DecidableEq α] :
    DecidableEq (Except ε α) := fun a b =>
  match a, b with
  | .ok x, .ok y =>
    if h : x = y then isTrue (by rw [h]) else isFalse (by intro hh; cases hh; exact h rfl)
  | .ok _, .error _ => isFalse (by intro hh; cases hh)
  | .error _, .ok _ => isFalse (by intro hh; cases hh)
  | .error x, .error y =>
    if h : x = y then isTrue (by rw [h]) else isFalse (by intro hh; cases hh; exact h rfl)

/-- An abstract sub-task used to drive the combinator state machines:
it reports `notReady` for its first `delay` polls and then yields
`result`. The `polls` field is instrumentation only: it counts how many
times the task has been polled and never influences control flow. -/
structure ScriptTask (α ε : Type) where
  delay : Nat
  result : Except ε α
  polls : Nat
deriving DecidableEq, Repr

/-- Poll a `ScriptTask` once. -/
def pollScript {α ε : Type} (t : ScriptTask α ε) : ScriptTask α ε × Poll α ε :=
  if t.delay = 0 then
    ({ t with polls := t.polls + 1 },
      match t.result with
      | .ok a => .ready a
      | .error e => .err e)
  else
    ({ t with delay := t.delay - 1, polls := t.polls + 1 }, .notReady)

/-- Modelled from the spec: the helper module `maybe_done.rs` used by
`finchers-endpoint/src/and.rs` and `all.rs` is not present under the
source tree; spec §4.3 describes each slot of an `And`/`All` task as
being in state `Pending(inner task)` or `Done(extracted output)`, with
the inner task polled at most once to completion, its value cached, and
`erase`/`take_item` discarding the slot (the `Gone` state, polling
which is a fatal misuse). The `Nat` carried by `done`/`gone` is
instrumentation only: it records how many times the (cached or
discarded) inner task had been polled; it never influences control
flow. -/
inductive MaybeDone (α ε : Type) where
  | pending (t : ScriptTask α ε)
  | done (a : α) (polls : Nat)
  | gone (polls : Nat)
deriving DecidableEq, Repr

namespace MaybeDone

/-- Poll a slot once (`MaybeDone::poll_done`): a pending slot polls its
inner task, caching the value on completion and propagating an error
while leaving the slot as it was (the caller erases it); a done slot
reports completion without touching the inner task; polling a gone slot
is a panic (`none`). -/
def pollDone {α ε : Type} : MaybeDone α ε → Option (MaybeDone α ε × Except ε Bool)
  | .pending t =>
    match pollScript t with
    | (t', .ready a) => some (.done a t'.polls, .ok true)
    | (t', .notReady) => some (.pending t', .ok false)
    | (_, .err e) => some (.pending { t with polls := t.polls + 1 }, .error e)
  | .done a p => some (.done a p, .ok true)
  | .gone _ => none

/-- Discard the in-flight state of a slot (`MaybeDone::erase`). -/
def erase {α ε : Type} : MaybeDone α ε → MaybeDone α ε
  | .pending t => .gone t.polls
  | .done _ p => .gone p
  | .gone p => .gone p

/-- Take the cached value out of a completed slot
(`MaybeDone::take_item`); panics (`none`) unless the slot is done. -/
def takeItem {α ε : Type} : MaybeDone α ε → Option (α × Nat)
  | .done a p => some (a, p)
  | _ => none

/-- Instrumentation: how many times the slot's inner task has been
polled. -/
def pollsOf {α ε : Type} : MaybeDone α ε → Nat
  | .pending t => t.polls
  | .done _ p => p
  | .gone p => p

end MaybeDone

/- ===== Path-segment matching (finchers-core/src/endpoint/path.rs) ===== -/

/-- Translated from `MatchPathKind` in
`finchers-core/src/endpoint/path.rs`. -/
inductive MatchPathKind where
  | segments (pats : List String)
  | allSegments
deriving DecidableEq, Repr

/-- The loop body of `MatchPath::apply` for the `Segments` kind:
`matched = matched && *ctx.segments().next()? == *segment` iterated
over the configured segments. The `&&` short-circuits, so once
`matched` is false no further segment is consumed; `next()?` returning
`None` aborts the whole `apply` with a decline. Returns the match flag
(`none` for the aborting decline) together with the remaining
segments. -/
def matchSegmentsLoop : List String → Bool → List String → Option Bool × List String
  | [], matched, segs => (some matched, segs)
  | pat :: pats, matched, segs =>
    if matched then
      match segs with
      | [] => (none, [])
      | s :: rest => matchSegmentsLoop pats (s == pat) rest
    else
      matchSegmentsLoop pats matched segs

/-- Translated from `MatchPath::apply`: for `Segments`, run the loop
and match iff the flag survived as `true`; for `AllSegments`, consume
every remaining segment (`ctx.segments().count()`) and match. Returns
the apply result together with the remaining segments (the cursor
state after the call). -/
def MatchPath.apply : MatchPathKind → List String → Option Unit × List String
  | .segments pats, segs =>
    match matchSegmentsLoop pats true segs with
    | (some true, segs') => (some (), segs')
    | (some false, segs') => (none, segs')
    | (none, segs') => (none, segs')
  | .allSegments, _ => (some (), [])

/-- Translated from `MatchSegmentAction::apply` in
`finchers/src/endpoint/syntax.rs`: take the next segment (error
`NOT_FOUND` if none remains), then compare it with the stored encoded
literal. The `Bool` in the error position stands for
`StatusCode::NOT_FOUND`. Returns the result together with the
remaining segments. -/
def MatchSegmentAction.apply (encoded : String) (segs : List String) :
    Except Unit Unit × List String :=
  match segs with
  | [] => (.error (), [])
  | s :: rest => (if s == encoded then .ok () else .error (), rest)

/- ===== Typed single-segment extraction ===== -/

/-- The error type produced by `ExtractPathRequired::apply`:
`BadRequest::new(e)` for a decode failure, `NotPresent` when the
segments are exhausted. -/
inductive PathError (ε : Type) where
  | badRequest (e : ε)
  | notPresent (msg : String)
deriving DecidableEq, Repr

/-- Translated from `ExtractPath::apply` in
`finchers-core/src/endpoint/path.rs`:
`ctx.segments().next().and_then(|s| T::from_segment(s).map(ok).ok())` —
decline (`none`) if no segment remains or decoding fails, otherwise an
immediately-ready future with the decoded value. The decode function
`dec` stands for `T::from_segment`. Returns the apply result together
with the remaining segments. -/
def ExtractPath.apply {ε τ : Type} (dec : String → Except ε τ) (segs : List String) :
    Option (Except (PathError ε) τ) × List String :=
  match segs with
  | [] => (none, [])
  | s :: rest =>
    match dec s with
    | .ok v => (some (.ok v), rest)
    | .error _ => (none, rest)

/-- Translated from `ExtractPathRequired::apply`: always matches; the
returned future is an error (`NotPresent`) when no segment remains, a
`BadRequest` wrapping the decode error when decoding fails, and the
value otherwise. -/
def ExtractPathRequired.apply {ε τ : Type} (dec : String → Except ε τ) (segs : List String) :
    Option (Except (PathError ε) τ) × List String :=
  match segs with
  | [] => (some (.error (.notPresent "The number of path segments is insufficient")), [])
  | s :: rest =>
    match dec s with
    | .ok v => (some (.ok v), rest)
    | .error e => (some (.error (.badRequest e)), rest)

/- ===== The And task (finchers-endpoint/src/and.rs) ===== -/

/-- Translated from `AndTask` in `finchers-endpoint/src/and.rs`: two
`MaybeDone` slots. -/
structure AndTask (α β ε : Type) where
  f1 : MaybeDone α ε
  f2 : MaybeDone β ε
deriving DecidableEq, Repr

/-- Translated from `AndTask::poll_task`: poll slot 1; on error, erase
both slots and propagate the error; otherwise poll slot 2 likewise; if
both report done, take both cached items and yield the pair, else stay
not-ready. `none` models a panic (polling an erased slot or taking a
missing item). -/
def AndTask.pollTask {α β ε : Type} (t : AndTask α β ε) :
    Option (AndTask α β ε × Poll (α × β) ε) :=
  match t.f1.pollDone with
  | none => none
  | some (f1', .error e) => some (⟨f1'.erase, t.f2.erase⟩, .err e)
  | some (f1', .ok d1) =>
    match t.f2.pollDone with
    | none => none
    | some (f2', .error e) => some (⟨f1'.erase, f2'.erase⟩, .err e)
    | some (f2', .ok d2) =>
      if d1 && d2 then
        match f1'.takeItem, f2'.takeItem with
        | some (a, p1), some (b, p2) => some (⟨.gone p1, .gone p2⟩, .ready (a, b))
        | _, _ => none
      else
        some (⟨f1', f2'⟩, .notReady)

/- ===== The All task (finchers-endpoint/src/all.rs) ===== -/

/-- The loop of `AllTask::poll_task`: poll every slot in index order,
accumulating `all_done`; the first slot whose poll errors aborts the
loop, leaving every later slot untouched. Returns the updated slots
together with either the accumulated `all_done` flag or the error. -/
def pollAllElems {α ε : Type} :
    List (MaybeDone α ε) → Option (List (MaybeDone α ε) × Except ε Bool)
  | [] => some ([], .ok true)
  | m :: rest =>
    match m.pollDone with
    | none => none
    | some (m', .error e) => some (m' :: rest, .error e)
    | some (m', .ok d) =>
      match pollAllElems rest with
      | none => none
      | some (rest', .error e) => some (m' :: rest', .error e)
      | some (rest', .ok d2) => some (m' :: rest', .ok (d && d2))

/-- Take the cached item out of every slot
(`.map(|mut m| m.take_item())`); `none` models the panic of
`take_item` on an incomplete slot. -/
def takeAllItems {α ε : Type} : List (MaybeDone α ε) → Option (List α)
  | [] => some []
  | m :: rest =>
    match m.takeItem with
    | none => none
    | some (a, _) => (takeAllItems rest).map (a :: ·)

/-- Translated from `AllTask::poll_task`: run the polling loop; on an
error set `elems` to the empty vector (discarding every slot) and
propagate the error; if every slot is done, take all items (emptying
`elems` via `mem::replace`) and yield them in index order; otherwise
stay not-ready. -/
def AllTask.pollTask {α ε : Type} (elems : List (MaybeDone α ε)) :
    Option (List (MaybeDone α ε) × Poll (List α) ε) :=
  match pollAllElems elems with
  | none => none
  | some (_, .error e) => some ([], .err e)
  | some (elems', .ok allDone) =>
    if allDone then
      match takeAllItems elems' with
      | some vs => some ([], .ready vs)
      | none => none
    else
      some (elems', .notReady)

/-- Translated from `All::apply` in `finchers-endpoint/src/all.rs`:
apply every member endpoint in order against the shared cursor,
declining as soon as one declines, and collect a pending slot per
member. An endpoint is abstracted as its `apply` function from the
remaining segments to an optional task plus updated segments. -/
def All.apply {α ε : Type}
    (inner : List (List String → Option (ScriptTask α ε × List String)))
    (segs : List String) : Option (List (MaybeDone α ε) × List String) :=
  match inner with
  | [] => some ([], segs)
  | e :: es =>
    match e segs with
    | none => none
    | some (t, segs') =>
      match All.apply es segs' with
      | none => none
      | some (ms, segs'') => some (.pending t :: ms, segs'')

/- ===== Driving a task to completion ===== -/

/-- The state of the driver loop around one aggregate task: still
polling, finished with a final result (the driver then stops polling,
as `AppFuture` moves to its `Done` state), or hit a panic. The final
task state is kept for instrumentation. -/
inductive RunState (σ α ε : Type) where
  | running (s : σ)
  | finished (r : Except ε α) (s : σ)
  | panicked (s : σ)
deriving DecidableEq, Repr

/-- One driver round: poll a running task once; `finished` and
`panicked` are absorbing. -/
def stepRun {σ α ε : Type} (step : σ → Option (σ × Poll α ε)) :
    RunState σ α ε → RunState σ α ε
  | .running s =>
    match step s with
    | none => .panicked s
    | some (s', .ready a) => .finished (.ok a) s'
    | some (s', .notReady) => .running s'
    | some (s', .err e) => .finished (.error e) s'
  | .finished r s => .finished r s
  | .panicked s => .panicked s

/-- The task state carried by a run state. -/
def RunState.stateOf {σ α ε : Type} : RunState σ α ε → σ
  | .running s => s
  | .finished _ s => s
  | .panicked s => s

/-- Drive a fresh `AndTask` over two scripted sub-tasks for `n`
rounds. -/
def andRun {α β ε : Type} (s1 : ScriptTask α ε) (s2 : ScriptTask β ε) :
    Nat → RunState (AndTask α β ε) (α × β) ε
  | 0 => .running ⟨.pending s1, .pending s2⟩
  | n + 1 => stepRun AndTask.pollTask (andRun s1 s2 n)

/-- Drive a fresh `AllTask` over a list of scripted sub-tasks for `n`
rounds. -/
def allRun {α ε : Type} (spec : List (ScriptTask α ε)) :
    Nat → RunState (List (MaybeDone α ε)) (List α) ε
  | 0 => .running (spec.map .pending)
  | n + 1 => stepRun AllTask.pollTask (allRun spec n)

/- ===== Endpoints as matching functions over the path cursor ===== -/

/-- An endpoint abstracted to its matching phase: from the remaining
path segments, either decline or produce an output together with the
updated remaining segments. This is the shape shared by
`Endpoint::apply` across the repository's variants. -/
structure MEndpoint (α : Type) where
  apply : List String → Option (α × List String)

/-- Translated from `And::apply` (`finchers-endpoint/src/and.rs`) and
`IntoEndpointExt::and` (`src/endpoint/mod.rs`): the first endpoint is
applied, and the second starts from the cursor position the first left
behind; either decline declines the whole combinator. The combined
output is `Combine::combine` of the two outputs. Outputs are modelled
as flat lists of values, with `Combine` modelled from the spec (the
`common::Combine` trait is not under the source tree): §3 of the spec
says And's output is the ordered concatenation of its two operands'
output tuples. -/
def andEndpoint {γ : Type} (e1 e2 : MEndpoint (List γ)) : MEndpoint (List γ) :=
  ⟨fun segs =>
    match e1.apply segs with
    | none => none
    | some (v1, r1) =>
      match e2.apply r1 with
      | none => none
      | some (v2, r2) => some (v1 ++ v2, r2)⟩

/-- Modelled from the spec: the `Or` combinator's `apply`
(`src/endpoint/or.rs`) is not under the source tree. Spec §4.4: try the
left endpoint against a snapshot of the cursor; reset and try the right;
if both structurally match, prefer the branch that consumed more
segments, and on a tie prefer the left (declared-first) branch; if one
matches, use it; if neither, decline. The output is tagged by branch. -/
def orEndpoint {α β : Type} (e1 : MEndpoint α) (e2 : MEndpoint β) :
    MEndpoint (Sum α β) :=
  ⟨fun segs =>
    match e1.apply segs, e2.apply segs with
    | some (a, r1), some (b, r2) =>
      if segs.length - r2.length > segs.length - r1.length then some (.inr b, r2)
      else some (.inl a, r1)
    | some (a, r1), none => some (.inl a, r1)
    | none, some (b, r2) => some (.inr b, r2)
    | none, none => none⟩

/- ===== Driver handling of a declined request (src/runtime/app.rs) ===== -/

/-- The error channel seen by the driver. `noRoute` is the error the
driver substitutes when the root endpoint declined; `other` carries any
status-bearing error raised by a task. -/
inductive HttpErr where
  | noRoute
  | other (status : Nat)
deriving DecidableEq, Repr

/-- Modelled from the spec: the `NoRoute` error type is defined in the
crate's `error` module, which is not under the source tree; spec §7
says the driver maps "no match anywhere" to a not-found outcome, so
`NoRoute` carries HTTP status 404. `other` keeps its own status. -/
def HttpErr.statusCode : HttpErr → Nat
  | .noRoute => 404
  | .other s => s

/-- Translated from `AppServiceFuture::poll` in `src/runtime/app.rs`:
`in_flight` is `Some(task)` when the root endpoint's `apply` matched
and `None` when it declined; a poll maps `Some(Ok(Ready(out)))` to the
success response, `Some(Err(e))` to `Err(e)`, and `None` to
`Err(NoRoute)`. `none` in the result means the service future is still
not ready. -/
def appOutput {ω : Type} (inFlight : Option (Poll ω HttpErr)) :
    Option (Except HttpErr ω) :=
  match inFlight with
  | some .notReady => none
  | some (.ready out) => some (.ok out)
  | some (.err e) => some (.error e)
  | none => some (.error .noRoute)

/-- Translated from `AppServiceFuture::poll` /
`AppServiceFuture::handle_error`: a successful output responds through
the endpoint's responder, and an error response takes its status from
`err.status_code()`. Only the status is modelled. -/
def appResponseStatus {ω : Type} (respond : ω → Nat) : Except HttpErr ω → Nat
  | .ok out => respond out
  | .error e => e.statusCode

/- ===== Polling a completed action again (finchers/src/endpoint/syntax.rs) ===== -/

/-- Outcome of one `poll_action` call: a value, a typed error, or a
panic. -/
inductive PollOutcome (α ε : Type) where
  | ok (a : α)
  | typedErr (e : ε)
  | panicked
deriving DecidableEq, Repr

/-- Translated from `Extracted::poll_action` in
`finchers/src/endpoint/syntax.rs`: the action holds `Option<T>`;
polling does `self.0.take().expect("This future has already polled")`,
so the first poll yields the value and leaves `None`, and any later
poll panics. Returns the new state and the outcome. -/
def Extracted.pollAction {τ ε : Type} : Option τ → Option τ × PollOutcome τ ε
  | some x => (none, .ok x)
  | none => (none, .panicked)

/- ===== Invariants of the MaybeDone slot discipline ===== -/

/-- The invariant a slot satisfies while its script has delay `d` and
final result `r`: a pending slot has polled at most `d - delay` times
and still carries `r`; a done slot caches the script's successful value
after at most `d + 1` polls; a gone slot was polled at most `d + 1`
times. -/
def SlotInv {α ε : Type} (d : Nat) (r : Except ε α) : MaybeDone α ε → Prop
  | .pending t => t.result = r ∧ t.delay + t.polls ≤ d
  | .done a p => r = .ok a ∧ p ≤ d + 1
  | .gone p => p ≤ d + 1

theorem SlotInv.pollsOf_le {α ε : Type} {d : Nat} {r : Except ε α} {m : MaybeDone α ε}
    (h : SlotInv d r m) : m.pollsOf ≤ d + 1 := by
  cases m with
  | pending t => simp only [SlotInv] at h; simp only [MaybeDone.pollsOf]; omega
  | done a p => simp only [SlotInv] at h; simp only [MaybeDone.pollsOf]; omega
  | gone p => simp only [SlotInv] at h; simpa only [MaybeDone.pollsOf]

theorem SlotInv.erase_inv {α ε : Type} {d : Nat} {r : Except ε α} {m : MaybeDone α ε}
    (h : SlotInv d r m) : SlotInv d r m.erase := by
  cases m with
  | pending t => simp only [SlotInv] at h ⊢; simp only [MaybeDone.erase, SlotInv]; omega
  | done a p => simp only [SlotInv] at h ⊢; simp only [MaybeDone.erase, SlotInv]; omega
  | gone p => simpa only [MaybeDone.erase] using h

theorem SlotInv.erase_pollsOf {α ε : Type} (m : MaybeDone α ε) :
    m.erase.pollsOf = m.pollsOf := by
  cases m <;> rfl

theorem SlotInv.pollDone_ok {α ε : Type} {d : Nat} {r : Except ε α}
    {m m' : MaybeDone α ε} {b : Bool}
    (h : SlotInv d r m) (hp : m.pollDone = some (m', .ok b)) : SlotInv d r m' := by
  cases m with
  | pending t =>
    obtain ⟨delay, result, polls⟩ := t
    obtain ⟨hr, hd⟩ := h
    simp only at hr hd
    cases delay with
    | zero =>
      cases result with
      | ok a =>
        simp [MaybeDone.pollDone, pollScript] at hp
        obtain ⟨hm, _⟩ := hp
        subst hm
        simp only [SlotInv]
        exact ⟨hr.symm, by omega⟩
      | error e => simp [MaybeDone.pollDone, pollScript] at hp
    | succ k =>
      simp [MaybeDone.pollDone, pollScript] at hp
      obtain ⟨hm, _⟩ := hp
      subst hm
      simp only [SlotInv]
      exact ⟨hr, by omega⟩
  | done a p =>
    simp only [MaybeDone.pollDone, Option.some_inj, Prod.mk.injEq] at hp
    obtain ⟨hm, _⟩ := hp
    subst hm
    exact h
  | gone p => simp [MaybeDone.pollDone] at hp

theorem SlotInv.pollDone_err {α ε : Type} {d : Nat} {r : Except ε α}
    {m m' : MaybeDone α ε} {e : ε}
    (h : SlotInv d r m) (hp : m.pollDone = some (m', .error e)) :
    r = .error e ∧ SlotInv d r m'.erase := by
  cases m with
  | pending t =>
    obtain ⟨delay, result, polls⟩ := t
    obtain ⟨hr, hd⟩ := h
    simp only at hr hd
    cases delay with
    | zero =>
      cases result with
      | ok a => simp [MaybeDone.pollDone, pollScript] at hp
      | error e0 =>
        simp [MaybeDone.pollDone, pollScript] at hp
        obtain ⟨hm, he⟩ := hp
        subst hm
        refine ⟨by rw [← hr, he], ?_⟩
        simp only [MaybeDone.erase, SlotInv]
        omega
    | succ k => simp [MaybeDone.pollDone, pollScript] at hp
  | done a p => simp [MaybeDone.pollDone] at hp
  | gone p => simp [MaybeDone.pollDone] at hp

theorem SlotInv.takeItem_eq {α ε : Type} {d : Nat} {r : Except ε α}
    {m : MaybeDone α ε} {a : α} {p : Nat}
    (h : SlotInv d r m) (ht : m.takeItem = some (a, p)) :
    r = .ok a ∧ p ≤ d + 1 := by
  cases m with
  | pending t => simp [MaybeDone.takeItem] at ht
  | done a0 p0 =>
    simp only [MaybeDone.takeItem, Option.some_inj, Prod.mk.injEq] at ht
    obtain ⟨ha, hpp⟩ := ht
    subst ha; subst hpp
    exact h
  | gone p => simp [MaybeDone.takeItem] at ht

/- ===== Invariant of the And run ===== -/

/-- Both slots of an `AndTask` satisfy the slot invariant for their
scripts. -/
def AndInv {α β ε : Type} (s1 : ScriptTask α ε) (s2 : ScriptTask β ε)
    (t : AndTask α β ε) : Prop :=
  SlotInv s1.delay s1.result t.f1 ∧ SlotInv s2.delay s2.result t.f2

theorem AndInv.pollTask_preserves {α β ε : Type} {s1 : ScriptTask α ε}
    {s2 : ScriptTask β ε} {t t' : AndTask α β ε} {res : Poll (α × β) ε}
    (h : AndInv s1 s2 t) (hp : t.pollTask = some (t', res)) :
    AndInv s1 s2 t' ∧
      ∀ a b, res = .ready (a, b) → s1.result = .ok a ∧ s2.result = .ok b := by
  obtain ⟨h1, h2⟩ := h
  unfold AndTask.pollTask at hp
  cases hpd1 : t.f1.pollDone with
  | none => rw [hpd1] at hp; exact absurd hp (by simp)
  | some pr1 =>
    obtain ⟨f1', r1⟩ := pr1
    rw [hpd1] at hp
    cases r1 with
    | error e =>
      simp only [Option.some_inj, Prod.mk.injEq] at hp
      obtain ⟨ht', hres⟩ := hp
      subst ht'
      obtain ⟨_, hinv1⟩ := SlotInv.pollDone_err h1 hpd1
      refine ⟨⟨hinv1, SlotInv.erase_inv h2⟩, ?_⟩
      intro a b hab
      rw [← hres] at hab
      cases hab
    | ok d1 =>
      cases hpd2 : t.f2.pollDone with
      | none => rw [hpd2] at hp; exact absurd hp (by simp)
      | some pr2 =>
        obtain ⟨f2', r2⟩ := pr2
        rw [hpd2] at hp
        have hinv1 := SlotInv.pollDone_ok h1 hpd1
        cases r2 with
        | error e =>
          simp only [Option.some_inj, Prod.mk.injEq] at hp
          obtain ⟨ht', hres⟩ := hp
          subst ht'
          obtain ⟨_, hinv2⟩ := SlotInv.pollDone_err h2 hpd2
          refine ⟨⟨SlotInv.erase_inv hinv1, hinv2⟩, ?_⟩
          intro a b hab
          rw [← hres] at hab
          cases hab
        | ok d2 =>
          have hinv2 := SlotInv.pollDone_ok h2 hpd2
          dsimp only at hp
          by_cases hdd : (d1 && d2) = true
          · rw [if_pos hdd] at hp
            cases ht1 : f1'.takeItem with
            | none => rw [ht1] at hp; exact absurd hp (by simp)
            | some v1 =>
              obtain ⟨a0, p1⟩ := v1
              cases ht2 : f2'.takeItem with
              | none => rw [ht1, ht2] at hp; exact absurd hp (by simp)
              | some v2 =>
                obtain ⟨b0, p2⟩ := v2
                rw [ht1, ht2] at hp
                simp only [Option.some_inj, Prod.mk.injEq] at hp
                obtain ⟨ht', hres⟩ := hp
                subst ht'
                obtain ⟨hr1, hp1⟩ := SlotInv.takeItem_eq hinv1 ht1
                obtain ⟨hr2, hp2⟩ := SlotInv.takeItem_eq hinv2 ht2
                refine ⟨⟨?_, ?_⟩, ?_⟩
                · simpa only [SlotInv]
                · simpa only [SlotInv]
                · intro a b hab
                  rw [← hres] at hab
                  cases hab
                  exact ⟨hr1, hr2⟩
          · rw [if_neg hdd] at hp
            simp only [Option.some_inj, Prod.mk.injEq] at hp
            obtain ⟨ht', hres⟩ := hp
            subst ht'
            refine ⟨⟨hinv1, hinv2⟩, ?_⟩
            intro a b hab
            rw [← hres] at hab
            cases hab

/-- The run-level invariant for `andRun`: the task state always
satisfies `AndInv`, and a successful final result is the pair of the
scripts' successful values. -/
def AndRunInv {α β ε : Type} (s1 : ScriptTask α ε) (s2 : ScriptTask β ε) :
    RunState (AndTask α β ε) (α × β) ε → Prop
  | .running s => AndInv s1 s2 s
  | .finished r s =>
    AndInv s1 s2 s ∧ ∀ a b, r = .ok (a, b) → s1.result = .ok a ∧ s2.result = .ok b
  | .panicked s => AndInv s1 s2 s

theorem andRunInv {α β ε : Type} (s1 : ScriptTask α ε) (s2 : ScriptTask β ε)
    (hs1 : s1.polls = 0) (hs2 : s2.polls = 0) :
    ∀ n, AndRunInv s1 s2 (andRun s1 s2 n) := by
  intro n
  induction n with
  | zero =>
    simp only [andRun, AndRunInv, AndInv, SlotInv]
    exact ⟨⟨trivial, by omega⟩, ⟨trivial, by omega⟩⟩
  | succ k ih =>
    simp only [andRun]
    cases hst : andRun s1 s2 k with
    | running s =>
      rw [hst] at ih
      simp only [AndRunInv] at ih
      simp only [stepRun]
      cases hp : s.pollTask with
      | none => simpa only [AndRunInv]
      | some pr =>
        obtain ⟨s', res⟩ := pr
        obtain ⟨hinv, hready⟩ := AndInv.pollTask_preserves ih hp
        cases res with
        | ready a =>
          obtain ⟨a1, a2⟩ := a
          simp only [AndRunInv]
          refine ⟨hinv, ?_⟩
          intro a b hab
          simp only [Except.ok.injEq, Prod.mk.injEq] at hab
          obtain ⟨ha, hb⟩ := hab
          subst ha; subst hb
          exact hready a1 a2 rfl
        | notReady => simpa only [AndRunInv]
        | err e =>
          simp only [AndRunInv]
          exact ⟨hinv, fun a b hab => by cases hab⟩
    | finished r s =>
      rw [hst] at ih
      simpa only [stepRun, AndRunInv] using ih
    | panicked s =>
      rw [hst] at ih
      simpa only [stepRun, AndRunInv] using ih

/- ===== Invariant of the All run ===== -/

/-- Every slot of an `AllTask` satisfies the slot invariant for the
script at the same index. -/
def AllInv {α ε : Type} (spec : List (ScriptTask α ε))
    (elems : List (MaybeDone α ε)) : Prop :=
  List.Forall₂ (fun s m => SlotInv s.delay s.result m) spec elems

theorem AllInv.pollAllElems_ok {α ε : Type} :
    ∀ {spec : List (ScriptTask α ε)} {elems elems' : List (MaybeDone α ε)} {b : Bool},
      AllInv spec elems → pollAllElems elems = some (elems', .ok b) →
      AllInv spec elems' := by
  intro spec elems
  induction elems generalizing spec with
  | nil =>
    intro elems' b h hp
    simp only [pollAllElems, Option.some_inj, Prod.mk.injEq] at hp
    obtain ⟨h1, _⟩ := hp
    subst h1
    cases h
    exact List.Forall₂.nil
  | cons m rest ih =>
    intro elems' b h hp
    cases h with
    | cons hs hrest =>
      unfold pollAllElems at hp
      cases hpd : m.pollDone with
      | none => rw [hpd] at hp; exact absurd hp (by simp)
      | some pr =>
        obtain ⟨m', r⟩ := pr
        rw [hpd] at hp
        cases r with
        | error e => simp at hp
        | ok d =>
          dsimp only at hp
          cases hr : pollAllElems rest with
          | none => rw [hr] at hp; exact absurd hp (by simp)
          | some pr2 =>
            obtain ⟨rest', r2⟩ := pr2
            rw [hr] at hp
            cases r2 with
            | error e => simp at hp
            | ok d2 =>
              simp only [Option.some_inj, Prod.mk.injEq] at hp
              obtain ⟨h1, _⟩ := hp
              subst h1
              exact List.Forall₂.cons (SlotInv.pollDone_ok hs hpd) (ih hrest hr)

theorem AllInv.takeAllItems_eq {α ε : Type} :
    ∀ {spec : List (ScriptTask α ε)} {elems : List (MaybeDone α ε)} {vs : List α},
      AllInv spec elems → takeAllItems elems = some vs →
      List.Forall₂ (fun s v => s.result = .ok v) spec vs := by
  intro spec elems
  induction elems generalizing spec with
  | nil =>
    intro vs h ht
    simp only [takeAllItems, Option.some_inj] at ht
    subst ht
    cases h
    exact List.Forall₂.nil
  | cons m rest ih =>
    intro vs h ht
    cases h with
    | cons hs hrest =>
      unfold takeAllItems at ht
      cases hti : m.takeItem with
      | none => rw [hti] at ht; exact absurd ht (by simp)
      | some v1 =>
        obtain ⟨a, p⟩ := v1
        rw [hti] at ht
        cases hrr : takeAllItems rest with
        | none => rw [hrr] at ht; exact absurd ht (by simp)
        | some vs' =>
          rw [hrr] at ht
          simp at ht
          subst ht
          exact List.Forall₂.cons (SlotInv.takeItem_eq hs hti).1 (ih hrest hrr)

/-- The run-level invariant for `allRun`: while running, every slot
satisfies its slot invariant; a successful final result pairs every
script with its successful value, in index order. -/
def AllRunInv {α ε : Type} (spec : List (ScriptTask α ε)) :
    RunState (List (MaybeDone α ε)) (List α) ε → Prop
  | .running s => AllInv spec s
  | .finished r _ =>
    ∀ vs, r = .ok vs → List.Forall₂ (fun s v => s.result = .ok v) spec vs
  | .panicked _ => True

theorem allRunInv {α ε : Type} (spec : List (ScriptTask α ε))
    (h0 : ∀ s ∈ spec, s.polls = 0) :
    ∀ n, AllRunInv spec (allRun spec n) := by
  intro n
  induction n with
  | zero =>
    simp only [allRun, AllRunInv]
    induction spec with
    | nil => exact List.Forall₂.nil
    | cons s spec' ih =>
      simp only [List.map_cons]
      refine List.Forall₂.cons ?_ (ih fun t ht => h0 t (List.mem_cons_of_mem s ht))
      have hz := h0 s (List.mem_cons_self s spec')
      simp only [SlotInv]
      exact ⟨trivial, by omega⟩
  | succ k ih =>
    simp only [allRun]
    cases hst : allRun spec k with
    | running s =>
      rw [hst] at ih
      simp only [AllRunInv] at ih
      simp only [stepRun]
      cases hp : AllTask.pollTask s with
      | none => exact trivial
      | some pr =>
        obtain ⟨s', res⟩ := pr
        unfold AllTask.pollTask at hp
        cases hpe : pollAllElems s with
        | none => rw [hpe] at hp; exact absurd hp (by simp)
        | some pr2 =>
          obtain ⟨elems', r2⟩ := pr2
          rw [hpe] at hp
          cases r2 with
          | error e =>
            simp only [Option.some_inj, Prod.mk.injEq] at hp
            obtain ⟨h1, h2⟩ := hp
            subst h1; subst h2
            simp only [AllRunInv]
            intro vs hvs
            cases hvs
          | ok allDone =>
            dsimp only at hp
            have hinv' := AllInv.pollAllElems_ok ih hpe
            by_cases had : allDone = true
            · rw [if_pos had] at hp
              cases hta : takeAllItems elems' with
              | none => rw [hta] at hp; exact absurd hp (by simp)
              | some vs =>
                rw [hta] at hp
                simp only [Option.some_inj, Prod.mk.injEq] at hp
                obtain ⟨h1, h2⟩ := hp
                subst h1; subst h2
                simp only [AllRunInv]
                intro vs' hvs'
                simp only [Except.ok.injEq] at hvs'
                subst hvs'
                exact AllInv.takeAllItems_eq hinv' hta
            · rw [if_neg had] at hp
              simp only [Option.some_inj, Prod.mk.injEq] at hp
              obtain ⟨h1, h2⟩ := hp
              subst h1; subst h2
              simpa only [AllRunInv]
    | finished r s =>
      rw [hst] at ih
      simpa only [stepRun, AllRunInv] using ih
    | panicked s =>
      exact trivial

/- ===== Helper lemmas about failing polls ===== -/

theorem pollAllElems_first_error {α ε : Type} (e : ε) (p : Nat) :
    ∀ (pre post : List (MaybeDone α ε)),
      (∀ m ∈ pre, ∃ m' d, m.pollDone = some (m', .ok d)) →
      ∃ pre', pre'.length = pre.length ∧
        pollAllElems (pre ++ .pending ⟨0, .error e, p⟩ :: post) =
          some (pre' ++ .pending ⟨0, .error e, p + 1⟩ :: post, .error e) := by
  intro pre
  induction pre with
  | nil =>
    intro post _
    refine ⟨[], rfl, ?_⟩
    simp [pollAllElems, MaybeDone.pollDone, pollScript]
  | cons m rest ih =>
    intro post hok
    obtain ⟨m', d, hmd⟩ := hok m (List.mem_cons_self m rest)
    obtain ⟨pre', hlen, hpe⟩ := ih post (fun x hx => hok x (List.mem_cons_of_mem m hx))
    refine ⟨m' :: pre', by simp [hlen], ?_⟩
    simp only [List.cons_append, pollAllElems, hmd, List.append_eq, hpe]

theorem pollAllTask_of_error {α ε : Type} {elems elems' : List (MaybeDone α ε)} {e : ε}
    (h : pollAllElems elems = some (elems', .error e)) :
    AllTask.pollTask elems = some ([], .err e) := by
  unfold AllTask.pollTask
  rw [h]

theorem forall₂_result_map {α ε : Type} :
    ∀ (dvs : List (Nat × α)) (vs : List α),
      List.Forall₂ (fun (sc : ScriptTask α ε) v => sc.result = .ok v)
        (dvs.map fun q => ⟨q.1, .ok q.2, 0⟩) vs →
      vs = dvs.map Prod.snd := by
  intro dvs
  induction dvs with
  | nil =>
    intro vs h
    cases h
    rfl
  | cons q dq ih =>
    intro vs h
    rw [List.map_cons] at h
    cases h with
    | cons hq hrest =>
      rename_i v vs'
      have hv : q.2 = v := by simpa using hq
      rw [List.map_cons, ← hv, ih vs' hrest]

/- ===== Claim theorems ===== -/

/-- C1, counterexample: the literal segment matcher `"foo"` applied to
the request path `["bar"]` declines, yet the cursor is not left
unchanged — the mismatched segment has already been consumed. This
refutes the claim that the cursor advances iff the match succeeds. -/
theorem literal_matcher_cursor_counterexample :
    (MatchPath.apply (.segments ["foo"]) ["bar"]).1 = none ∧
      (MatchPath.apply (.segments ["foo"]) ["bar"]).2 ≠ ["bar"] := by
  constructor
  · rfl
  · intro h
    simp [MatchPath.apply, matchSegmentsLoop] at h

/-- C1, amended: a literal segment matcher matches iff the next
unconsumed segment equals its literal exactly; the cursor advances by
exactly one segment iff a next segment exists — in particular, on a
decline caused by a differing segment the cursor still advances past
that segment, and it is unchanged only when no segment remains. This
holds for both `MatchPath::apply` (single-literal `Segments` kind) and
`MatchSegmentAction::apply`. -/
theorem literal_matcher_amended (lit : String) (segs : List String) :
    ((MatchPath.apply (.segments [lit]) segs).1 = some () ↔ segs.head? = some lit) ∧
    (MatchPath.apply (.segments [lit]) segs).2 = segs.tail ∧
    ((MatchSegmentAction.apply lit segs).1 = .ok () ↔ segs.head? = some lit) ∧
    (MatchSegmentAction.apply lit segs).2 = segs.tail := by
  cases segs with
  | nil =>
    refine ⟨?_, rfl, ?_, rfl⟩ <;>
      simp [MatchPath.apply, matchSegmentsLoop, MatchSegmentAction.apply]
  | cons s rest =>
    by_cases h : s = lit
    · subst h
      refine ⟨?_, ?_, ?_, ?_⟩ <;>
        simp [MatchPath.apply, matchSegmentsLoop, MatchSegmentAction.apply]
    · have hb : (s == lit) = false := beq_eq_false_iff_ne.mpr h
      refine ⟨?_, ?_, ?_, ?_⟩ <;>
        simp [MatchPath.apply, matchSegmentsLoop, MatchSegmentAction.apply, hb, h]

/-- C6: the typed single-segment extractor (`ExtractPath::apply`)
declines — does not fail — both when no segment remains and when the
decode function rejects the segment; the required variant
(`ExtractPathRequired::apply`) instead matches and fails with a
bad-request error carrying the decode error. -/
theorem extractor_decline_vs_required (ε τ : Type) (dec : String → Except ε τ)
    (s : String) (rest : List String) (e : ε) :
    ExtractPath.apply dec [] = ((none : Option (Except (PathError ε) τ)), []) ∧
    (dec s = .error e → ExtractPath.apply dec (s :: rest) = (none, rest)) ∧
    (dec s = .error e →
      ExtractPathRequired.apply dec (s :: rest) = (some (.error (.badRequest e)), rest)) := by
  refine ⟨rfl, ?_, ?_⟩ <;>
    · intro hd
      simp [ExtractPath.apply, ExtractPathRequired.apply, hd]

/-- C6, witness: a decoder that rejects everything with error `7`. -/
theorem extractor_decline_vs_required_witness :
    ((fun _ : String => (Except.error 7 : Except Nat Nat)) "abc" = .error 7) ∧
      ExtractPath.apply (fun _ : String => (Except.error 7 : Except Nat Nat)) ["abc"] =
        (none, []) ∧
      ExtractPathRequired.apply (fun _ : String => (Except.error 7 : Except Nat Nat)) ["abc"] =
        (some (.error (.badRequest 7)), []) :=
  ⟨rfl,
   (extractor_decline_vs_required Nat Nat (fun _ => .error 7) "abc" [] 7).2.1 rfl,
   (extractor_decline_vs_required Nat Nat (fun _ => .error 7) "abc" [] 7).2.2 rfl⟩

/-- C7: when both branches of `Or` structurally match, the branch that
consumed more segments wins, and on a tie (or when the left consumed at
least as much) the left, declared-first, branch's result is returned. -/
theorem or_priority (α β : Type) (e1 : MEndpoint α) (e2 : MEndpoint β)
    (segs r1 r2 : List String) (a : α) (b : β)
    (h1 : e1.apply segs = some (a, r1)) (h2 : e2.apply segs = some (b, r2)) :
    (segs.length - r2.length > segs.length - r1.length →
      (orEndpoint e1 e2).apply segs = some (.inr b, r2)) ∧
    (segs.length - r1.length ≥ segs.length - r2.length →
      (orEndpoint e1 e2).apply segs = some (.inl a, r1)) := by
  constructor
  · intro hgt
    simp [orEndpoint, h1, h2, hgt]
  · intro hge
    have : ¬(segs.length - r2.length > segs.length - r1.length) := by omega
    simp [orEndpoint, h1, h2, this]

/-- C7, witness: a literal-style branch and an extractor-style branch
that both consume the single segment `"foo"`; specificities tie and the
left branch is chosen. -/
theorem or_priority_witness :
    ((⟨fun s => some (1, s.tail)⟩ : MEndpoint Nat).apply ["foo"] = some (1, []) ∧
      (⟨fun s => some (2, s.tail)⟩ : MEndpoint Nat).apply ["foo"] = some (2, [])) ∧
    (orEndpoint (⟨fun s => some (1, s.tail)⟩ : MEndpoint Nat)
        (⟨fun s => some (2, s.tail)⟩ : MEndpoint Nat)).apply ["foo"] =
      some (.inl 1, []) :=
  ⟨⟨rfl, rfl⟩,
   (or_priority Nat Nat ⟨fun s => some (1, s.tail)⟩ ⟨fun s => some (2, s.tail)⟩
      ["foo"] [] [] 1 2 rfl rfl).2 (by decide)⟩

/-- C4: the `and` combinator concatenates its operands' output tuples
in declaration order; chaining three endpoints yields the single flat
concatenation of the three outputs, and the two ways of associating the
chain agree (no nested pair is ever produced). -/
theorem and_output_flat (γ : Type) (e1 e2 e3 : MEndpoint (List γ))
    (segs r1 r2 r3 : List String) (v1 v2 v3 : List γ)
    (h1 : e1.apply segs = some (v1, r1)) (h2 : e2.apply r1 = some (v2, r2))
    (h3 : e3.apply r2 = some (v3, r3)) :
    (andEndpoint e1 e2).apply segs = some (v1 ++ v2, r2) ∧
    (andEndpoint (andEndpoint e1 e2) e3).apply segs = some (v1 ++ v2 ++ v3, r3) ∧
    (andEndpoint (andEndpoint e1 e2) e3).apply segs =
      (andEndpoint e1 (andEndpoint e2 e3)).apply segs := by
  refine ⟨?_, ?_, ?_⟩ <;> simp [andEndpoint, h1, h2, h3]

/-- C4, witness: mirror of the repository's `test_and_flatten` test —
`ok(("Hello",)).and(ok(())).and(ok(("world", ":)")))` produces the flat
triple. -/
theorem and_output_flat_witness :
    (andEndpoint (andEndpoint (⟨fun s => some (["Hello"], s)⟩ : MEndpoint (List String))
          ⟨fun s => some ([], s)⟩)
        ⟨fun s => some (["world", ":)"], s)⟩).apply [] =
      some (["Hello", "world", ":)"], []) :=
  (and_output_flat String ⟨fun s => some (["Hello"], s)⟩ ⟨fun s => some ([], s)⟩
    ⟨fun s => some (["world", ":)"], s)⟩ [] [] [] [] ["Hello"] [] ["world", ":)"]
    rfl rfl rfl).2.1

/-- C8: when the root endpoint's `apply` declined (no in-flight task),
the driver's poll substitutes the `NoRoute` error, whose response is
the not-found outcome (status 404); a decline can produce no error
other than `NoRoute`. -/
theorem decline_maps_to_not_found (ω : Type) (respond : ω → Nat) :
    appOutput (ω := ω) none = some (.error .noRoute) ∧
    appResponseStatus respond (.error .noRoute) = 404 ∧
    ∀ e, appOutput (ω := ω) none = some (.error e) → e = .noRoute := by
  refine ⟨rfl, rfl, ?_⟩
  intro e he
  simp only [appOutput, Option.some_inj, Except.error.injEq] at he
  exact he.symm

/-- C8, witness: the driver's handling of a decline, at a concrete
responder. -/
theorem decline_maps_to_not_found_witness :
    appOutput (ω := Unit) none = some (.error .noRoute) ∧
      appResponseStatus (fun _ : Unit => 200) (.error .noRoute) = 404 ∧
      HttpErr.noRoute = HttpErr.noRoute :=
  ⟨(decline_maps_to_not_found Unit (fun _ => 200)).1,
   (decline_maps_to_not_found Unit (fun _ => 200)).2.1,
   (decline_maps_to_not_found Unit (fun _ => 200)).2.2 .noRoute rfl⟩

/-- C9: `Extracted::poll_action` yields its value on the first poll and
leaves the empty state behind; polling again panics — it never returns
a typed error. -/
theorem repoll_completed_action_panics (τ ε : Type) (x : τ) :
    Extracted.pollAction (ε := ε) (some x) = (none, .ok x) ∧
    Extracted.pollAction (ε := ε) (none : Option τ) = (none, .panicked) ∧
    ∀ e : ε, (Extracted.pollAction (ε := ε) (none : Option τ)).2 ≠ .typedErr e := by
  refine ⟨rfl, rfl, ?_⟩
  intro e he
  simp [Extracted.pollAction] at he

/-- C10: `All` over an empty collection of endpoints matches every
request without consuming any path segment, and its task completes on
the first poll with the empty output vector. -/
theorem all_empty_matches_everything (α ε : Type) (segs : List String) :
    All.apply ([] : List (List String → Option (ScriptTask α ε × List String))) segs =
        some ([], segs) ∧
    AllTask.pollTask ([] : List (MaybeDone α ε)) = some ([], .ready []) ∧
    allRun ([] : List (ScriptTask α ε)) 1 = .finished (.ok []) [] := by
  exact ⟨rfl, rfl, rfl⟩

/-- C2: on any poll in which some sub-task's poll fails, the failure
becomes the aggregate's result and every other slot's in-flight state
is discarded at once: in `And`, a failure of the first slot erases the
second without polling it (its poll count is untouched) and a failure
of the second erases both; in `All`, the first failing slot aborts the
loop with every later slot untouched and the task discards all slots
and yields the error — never a partial aggregate. -/
theorem failure_cancels_siblings :
    (∀ (α β ε : Type) (e : ε) (p : Nat) (md : MaybeDone β ε),
      AndTask.pollTask (⟨.pending ⟨0, .error e, p⟩, md⟩ : AndTask α β ε) =
          some (⟨.gone (p + 1), md.erase⟩, .err e) ∧
        md.erase.pollsOf = md.pollsOf) ∧
    (∀ (α β ε : Type) (e : ε) (p : Nat) (m1 m1' : MaybeDone α ε) (d1 : Bool),
      m1.pollDone = some (m1', .ok d1) →
      AndTask.pollTask (⟨m1, .pending ⟨0, .error e, p⟩⟩ : AndTask α β ε) =
        some (⟨m1'.erase, .gone (p + 1)⟩, .err e)) ∧
    (∀ (α ε : Type) (e : ε) (p : Nat) (pre post : List (MaybeDone α ε)),
      (∀ m ∈ pre, ∃ m' d, m.pollDone = some (m', .ok d)) →
      (∃ pre', pre'.length = pre.length ∧
        pollAllElems (pre ++ .pending ⟨0, .error e, p⟩ :: post) =
          some (pre' ++ .pending ⟨0, .error e, p + 1⟩ :: post, .error e)) ∧
      AllTask.pollTask (pre ++ .pending ⟨0, .error e, p⟩ :: post) = some ([], .err e)) := by
  refine ⟨?_, ?_, ?_⟩
  · intro α β ε e p md
    refine ⟨?_, SlotInv.erase_pollsOf md⟩
    simp [AndTask.pollTask, MaybeDone.pollDone, pollScript, MaybeDone.erase]
  · intro α β ε e p m1 m1' d1 h
    unfold AndTask.pollTask
    rw [h]
    simp [MaybeDone.pollDone, pollScript, MaybeDone.erase]
  · intro α ε e p pre post hok
    obtain ⟨pre', hlen, hpe⟩ := pollAllElems_first_error e p pre post hok
    exact ⟨⟨pre', hlen, hpe⟩, pollAllTask_of_error hpe⟩

/-- C2, witness: a failing first slot next to a pending sibling with 5
rounds of work left, and an `All` task whose middle slot fails. -/
theorem failure_cancels_siblings_witness :
    (AndTask.pollTask (⟨.pending ⟨0, .error 42, 0⟩, .pending ⟨5, .ok 1, 0⟩⟩ :
          AndTask Nat Nat Nat) =
        some (⟨.gone 1, .gone 0⟩, .err 42) ∧
      (MaybeDone.pending (⟨5, .ok 1, 0⟩ : ScriptTask Nat Nat)).erase.pollsOf =
        (MaybeDone.pending (⟨5, .ok 1, 0⟩ : ScriptTask Nat Nat)).pollsOf) ∧
    AllTask.pollTask ([.pending ⟨1, .ok 7, 0⟩, .pending ⟨0, .error 42, 0⟩,
        .pending ⟨3, .ok 9, 0⟩] : List (MaybeDone Nat Nat)) = some ([], .err 42) :=
  ⟨(failure_cancels_siblings.1 Nat Nat Nat 42 0 (.pending ⟨5, .ok 1, 0⟩)),
   (failure_cancels_siblings.2.2 Nat Nat 42 0 [.pending ⟨1, .ok 7, 0⟩]
      [.pending ⟨3, .ok 9, 0⟩]
      (by
        intro m hm
        simp only [List.mem_singleton] at hm
        subst hm
        exact ⟨.pending ⟨0, .ok 7, 1⟩, false, rfl⟩)).2⟩

/-- C3: in an `And` or `All` run, no sub-task is ever polled more than
`delay + 1` times — once it has completed (reached `Done`) it is never
polled again, however many more times the parent is polled — and a
successful final aggregate is built from the cached sub-task values. -/
theorem subtask_polled_at_most_once :
    (∀ (α β ε : Type) (d1 d2 : Nat) (r1 : Except ε α) (r2 : Except ε β) (n : Nat),
      ((andRun ⟨d1, r1, 0⟩ ⟨d2, r2, 0⟩ n).stateOf.f1.pollsOf ≤ d1 + 1 ∧
        (andRun ⟨d1, r1, 0⟩ ⟨d2, r2, 0⟩ n).stateOf.f2.pollsOf ≤ d2 + 1) ∧
      ∀ (a : α) (b : β) s, andRun ⟨d1, r1, 0⟩ ⟨d2, r2, 0⟩ n = .finished (.ok (a, b)) s →
        r1 = .ok a ∧ r2 = .ok b) ∧
    (∀ (α ε : Type) (spec : List (ScriptTask α ε)), (∀ s ∈ spec, s.polls = 0) →
      ∀ n, (∀ s, allRun spec n = .running s →
          List.Forall₂ (fun sc m => m.pollsOf ≤ sc.delay + 1) spec s) ∧
        ∀ vs s, allRun spec n = .finished (.ok vs) s →
          List.Forall₂ (fun sc v => sc.result = .ok v) spec vs) := by
  constructor
  · intro α β ε d1 d2 r1 r2 n
    have hinv := andRunInv ⟨d1, r1, 0⟩ ⟨d2, r2, 0⟩ rfl rfl n
    constructor
    · have hand : AndInv ⟨d1, r1, 0⟩ ⟨d2, r2, 0⟩
          (andRun ⟨d1, r1, 0⟩ ⟨d2, r2, 0⟩ n).stateOf := by
        cases hst : andRun ⟨d1, r1, 0⟩ ⟨d2, r2, 0⟩ n with
        | running s => rw [hst] at hinv; exact hinv
        | finished r s => rw [hst] at hinv; exact hinv.1
        | panicked s => rw [hst] at hinv; exact hinv
      exact ⟨SlotInv.pollsOf_le hand.1, SlotInv.pollsOf_le hand.2⟩
    · intro a b s heq
      rw [heq] at hinv
      exact hinv.2 a b rfl
  · intro α ε spec h0 n
    have hinv := allRunInv spec h0 n
    constructor
    · intro s hs
      rw [hs] at hinv
      exact List.Forall₂.imp (fun sc m hm => SlotInv.pollsOf_le hm) hinv
    · intro vs s hs
      rw [hs] at hinv
      exact hinv vs rfl

/-- C3, witness: an `And` run whose left slot needs one extra round (it
completes on the second parent poll) and a one-element `All` run. -/
theorem subtask_polled_at_most_once_witness :
    ((Except.ok 5 : Except Nat Nat) = .ok 5 ∧ (Except.ok 6 : Except Nat Nat) = .ok 6) ∧
      List.Forall₂ (fun (sc : ScriptTask Nat Nat) v => sc.result = .ok v)
        [⟨0, .ok 3, 0⟩] [3] :=
  ⟨(subtask_polled_at_most_once.1 Nat Nat Nat 1 0 (.ok 5) (.ok 6) 2).2 5 6
      ⟨.gone 2, .gone 1⟩ (by decide),
   (subtask_polled_at_most_once.2 Nat Nat [⟨0, .ok 3, 0⟩] (by decide) 1).2 [3] []
      (by decide)⟩

/-- C5: whatever the sub-tasks' delays — i.e. whichever resolves first —
a finished `And` aggregate is the pair of the two scripted values in
declaration order, and a finished `All` aggregate is the list of the
scripted values in index order. -/
theorem result_order_is_declaration_order :
    (∀ (α β ε : Type) (d1 d2 : Nat) (a0 : α) (b0 : β) (n : Nat) (z : α × β)
        (s : AndTask α β ε),
      andRun ⟨d1, .ok a0, 0⟩ ⟨d2, .ok b0, 0⟩ n = .finished (.ok z) s → z = (a0, b0)) ∧
    (∀ (α ε : Type) (dvs : List (Nat × α)) (n : Nat) (vs : List α)
        (s : List (MaybeDone α ε)),
      allRun (dvs.map fun q => (⟨q.1, .ok q.2, 0⟩ : ScriptTask α ε)) n =
          .finished (.ok vs) s →
        vs = dvs.map Prod.snd) := by
  constructor
  · intro α β ε d1 d2 a0 b0 n z s heq
    have hinv := andRunInv (⟨d1, .ok a0, 0⟩ : ScriptTask α ε)
      (⟨d2, .ok b0, 0⟩ : ScriptTask β ε) rfl rfl n
    rw [heq] at hinv
    obtain ⟨z1, z2⟩ := z
    obtain ⟨h1, h2⟩ := hinv.2 z1 z2 rfl
    have ha : a0 = z1 := by simpa using h1
    have hb : b0 = z2 := by simpa using h2
    rw [ha, hb]
  · intro α ε dvs n vs s heq
    have h0 : ∀ t ∈ dvs.map fun q => (⟨q.1, .ok q.2, 0⟩ : ScriptTask α ε), t.polls = 0 := by
      intro t ht
      simp only [List.mem_map] at ht
      obtain ⟨q, _, hq⟩ := ht
      rw [← hq]
    have hinv := allRunInv _ h0 n
    rw [heq] at hinv
    exact forall₂_result_map dvs vs (hinv vs rfl)

/-- C5, witness: the left `And` slot is slow (two extra rounds) and the
right resolves immediately, yet the result pair is in declaration
order; similarly for a two-element `All` whose first member is the
slower one. -/
theorem result_order_witness :
    ((1 : Nat), (2 : Nat)) = (1, 2) ∧
      ([10, 20] : List Nat) = ([(1, 10), (0, 20)] : List (Nat × Nat)).map Prod.snd :=
  ⟨result_order_is_declaration_order.1 Nat Nat Nat 2 0 1 2 3 (1, 2) ⟨.gone 3, .gone 1⟩
      (by decide),
   result_order_is_declaration_order.2 Nat Nat [(1, 10), (0, 20)] 2 [10, 20] [] (by decide)⟩

end Finchers
